import Mathlib

/-!
Verification development for the Excel-to-Moodle-XML converter
(source file xlsx-to-moodle.py).

The Python source is embedded shallowly:

* Python strings are `List Char` (wrapped in `String` at the API surface);
* Python floats are modelled as exact rationals `ℚ` (the numeric values the
  claims exercise, such as 100, 50, 0, 150, 1e-5, are exactly representable,
  so the model agrees with IEEE doubles on them; the float literal
  `1e-6` in the source is modelled by the rational 1/1000000);
* a spreadsheet cell, i.e. the value `qrow.get(...)` yields, is the inductive
  type `Cell`: absent key / `None`, the pandas missing marker `nan` (a float),
  a string, a float, or a bool;
* regular-expression operations of the source are embedded as explicit
  scanning functions with the exact left-to-right, non-overlapping,
  lazy/greedy semantics of the corresponding patterns (each function carries
  a comment naming the pattern it implements); Python character classes
  `\s` and `\d` are modelled by their ASCII meaning, which covers every
  character the claims exercise;
* functions whose recursion is not structural take an explicit fuel
  argument; the wrapper passes the length of the input, which strictly
  bounds the number of recursion steps, so the out-of-fuel branch (which
  returns its argument unchanged) is never reached from the wrappers.

File I/O (`pd.read_excel`, `tree.write`), argument parsing and the external
column normalisation step are out of scope, as in the specification.
-/

set_option maxHeartbeats 1600000
set_option maxRecDepth 4000

/- The library marks rational arithmetic irreducible; the definitions below
are meant to be evaluated on concrete inputs, so restore the default
reducibility for them. -/
set_option allowUnsafeReducibility true
attribute [semireducible] Rat.mul Rat.div Rat.sub Rat.add Rat.neg Rat.inv Rat.ofScientific

/-! ## Character classes and small string helpers -/

/-- The control characters removed by `_ctrl_re = [\x00-\x08\x0B\x0C\x0E-\x1F]`
(source line 23). -/
def isCtrl (c : Char) : Bool :=
  (c.toNat ≤ 8) || c.toNat = 11 || c.toNat = 12 || (14 ≤ c.toNat && c.toNat ≤ 31)

/-- Python regex `\s` (ASCII part): space, tab, newline, carriage return,
vertical tab, form feed. -/
def isSpacePy (c : Char) : Bool :=
  c == ' ' || c == '\t' || c == '\n' || c == '\r' ||
  c == Char.ofNat 11 || c == Char.ofNat 12

/-- `_ctrl_re.sub("", s)`: remove the control characters (source line 28). -/
def stripCtrlChars (cs : List Char) : List Char :=
  cs.filter (fun c => !(isCtrl c))

/-- Python `str.strip()`: drop whitespace from both ends. -/
def pyStrip (cs : List Char) : List Char :=
  ((cs.dropWhile isSpacePy).reverse.dropWhile isSpacePy).reverse

/-- Python `str.lower()` (ASCII part). -/
def pyLower (cs : List Char) : List Char :=
  cs.map Char.toLower

/-- Substring test: does `pat` occur contiguously in `cs`? -/
def startsWithL : List Char → List Char → Bool
  | [], _ => true
  | _ :: _, [] => false
  | p :: ps, c :: cs => p == c && startsWithL ps cs

/-- Substring occurrence test, used to state side conditions about inputs. -/
def containsSub (pat : List Char) : List Char → Bool
  | [] => startsWithL pat []
  | c :: rest => startsWithL pat (c :: rest) || containsSub pat rest

/-! ## The markup translator, first stages (source lines 30-51) -/

/-- First half of `t.replace("\r\n", "\n")` and `t.replace("\r", "\n")`
(source line 42): replace each `"\r\n"` pair, left to right. -/
def replaceCrLf : List Char → List Char
  | '\r' :: '\n' :: rest => '\n' :: replaceCrLf rest
  | c :: rest => c :: replaceCrLf rest
  | [] => []

/-- Second half of source line 42: `t.replace("\r", "\n")` on the result. -/
def replaceCr (cs : List Char) : List Char :=
  cs.map (fun c => if c = '\r' then '\n' else c)

/-- Source line 43: `t.replace("[br]", "\n")`, left to right. -/
def replaceBrToken : List Char → List Char
  | '[' :: 'b' :: 'r' :: ']' :: rest => '\n' :: replaceBrToken rest
  | c :: rest => c :: replaceBrToken rest
  | [] => []

/-- One character of `html.escape(t)` with `quote=True` (source line 46):
the five sequential replaces of the library function commute with a
character-wise expansion because no replacement string contains a later
pattern character. -/
def escChar (c : Char) : List Char :=
  if c = '&' then "&amp;".data
  else if c = '<' then "&lt;".data
  else if c = '>' then "&gt;".data
  else if c = '"' then "&quot;".data
  else if c = Char.ofNat 39 then "&#x27;".data
  else [c]

/-- `html.escape(t, quote=True)` (source line 46). -/
def escapeHtml : List Char → List Char
  | [] => []
  | c :: rest => escChar c ++ escapeHtml rest

/-- Close search for the bold pattern `\*\*(.+?)\*\*` (source line 49):
given the text after an opening `**`, find the lazy (shortest, at least one
character, no newline since `.` does not match `\n`) content followed by the
first closing `**`; returns the content and the text after the close. -/
def splitBoldClose : List Char → Option (List Char × List Char)
  | [] => none
  | c :: rest =>
    if c = '\n' then none
    else
      match rest with
      | '*' :: '*' :: rest2 => some ([c], rest2)
      | _ =>
        match splitBoldClose rest with
        | some (content, rest2) => some (c :: content, rest2)
        | none => none

/-- `re.sub(r"\*\*(.+?)\*\*", r"<strong>\1</strong>", t)` (source line 49):
left-to-right non-overlapping scan; on failure to close, the scan advances
one character (past the first `*`), exactly as the regex engine does.
Fuel bounds the steps; each step consumes at least one input character. -/
def boldSubF : ℕ → List Char → List Char
  | 0, cs => cs
  | fuel + 1, cs =>
    match cs with
    | '*' :: '*' :: rest =>
      match splitBoldClose rest with
      | some (content, rest2) =>
          "<strong>".data ++ content ++ "</strong>".data ++ boldSubF fuel rest2
      | none => '*' :: boldSubF fuel ('*' :: rest)
    | c :: rest => c :: boldSubF fuel rest
    | [] => []

def boldSub (cs : List Char) : List Char := boldSubF cs.length cs

/-- Close search for the italic pattern
`(?<!\*)\*(?!\*)(.+?)(?<!\*)\*(?!\*)` (source line 51): lazy content (at
least one character, no newline), then a `*` whose preceding character (the
last content character) is not `*` and whose following character is not `*`.
When a candidate close fails its lookaround tests the content is extended,
as the lazy quantifier backtracks. -/
def splitItalicClose : List Char → Option (List Char × List Char)
  | [] => none
  | c :: rest =>
    if c = '\n' then none
    else
      match rest with
      | '*' :: rest2 =>
        if c ≠ '*' ∧ rest2.head? ≠ some '*' then some ([c], rest2)
        else
          match splitItalicClose rest with
          | some (content, rest3) => some (c :: content, rest3)
          | none => none
      | _ =>
        match splitItalicClose rest with
        | some (content, rest3) => some (c :: content, rest3)
        | none => none

/-- `re.sub(r"(?<!\*)\*(?!\*)(.+?)(?<!\*)\*(?!\*)", r"<em>\1</em>", t)`
(source line 51). `prev` is the character preceding the scan position in
the original string (the lookbehind context); after a match it is the
closing `*`. -/
def italicSubF : ℕ → Option Char → List Char → List Char
  | 0, _, cs => cs
  | fuel + 1, prev, cs =>
    match cs with
    | [] => []
    | c :: rest =>
      if c = '*' ∧ prev ≠ some '*' ∧ rest.head? ≠ some '*' then
        match splitItalicClose rest with
        | some (content, rest2) =>
            "<em>".data ++ content ++ "</em>".data ++ italicSubF fuel (some '*') rest2
        | none => c :: italicSubF fuel (some c) rest
      else
        c :: italicSubF fuel (some c) rest

def italicSub (cs : List Char) : List Char := italicSubF cs.length none cs

/-! ## The markup translator, list detection and line breaks
(source lines 54-81) -/

/-- `t.split("\n")` (source line 54): Python semantics, so the empty string
yields one empty line and `n` separators yield `n + 1` lines. -/
def splitNl : List Char → List (List Char)
  | [] => [[]]
  | c :: rest =>
    if c = '\n' then [] :: splitNl rest
    else
      match splitNl rest with
      | l :: ls => (c :: l) :: ls
      | [] => [[c]]

/-- `re.match(r"^\s*-\s+", line)` (source lines 60 and 62): optional leading
whitespace, a dash, then at least one whitespace character. -/
def matchBullet (l : List Char) : Bool :=
  match l.dropWhile isSpacePy with
  | '-' :: c :: _ => isSpacePy c
  | _ => false

/-- `re.match(r"^\s*\d+[\.\)]\s+", line)` (source lines 68 and 70): optional
leading whitespace, at least one digit, a dot or closing parenthesis, then
at least one whitespace character. -/
def matchNum (l : List Char) : Bool :=
  let r := l.dropWhile isSpacePy
  match r.takeWhile Char.isDigit, r.dropWhile Char.isDigit with
  | [], _ => false
  | _ :: _, p :: c :: _ => (p == '.' || p == ')') && isSpacePy c
  | _ :: _, _ => false

/-- `re.sub(r"^\s*-\s+", "", line)` (source line 63): the anchored pattern
matches at most once; on a match the greedy `\s*`, the dash and the greedy
`\s+` are removed. -/
def subBulletMarker (l : List Char) : List Char :=
  if matchBullet l then ((l.dropWhile isSpacePy).drop 1).dropWhile isSpacePy
  else l

/-- `re.sub(r"^\s*\d+[\.\)]\s+", "", line)` (source line 71). -/
def subNumMarker (l : List Char) : List Char :=
  if matchNum l then
    (((l.dropWhile isSpacePy).dropWhile Char.isDigit).drop 1).dropWhile isSpacePy
  else l

/-- `"<ul>" + "".join(f"<li>{itm}</li>" for itm in items) + "</ul>"`
(source lines 65 and 73), parametrised by the tag pair. -/
def wrapItems (openTag closeTag : List Char) (items : List (List Char)) : List Char :=
  openTag ++ (items.map (fun itm => "<li>".data ++ itm ++ "</li>".data)).flatten ++ closeTag

/-- The while-loop over lines (source lines 56-77): a maximal run of bullet
lines becomes one unordered-list block, a maximal run of numbered lines one
ordered-list block, any other line is passed through. One unit of fuel is
spent per emitted block or plain line. -/
def scanLinesF : ℕ → List (List Char) → List (List Char)
  | 0, lines => lines
  | _ + 1, [] => []
  | fuel + 1, line :: rest =>
    if matchBullet line then
      wrapItems "<ul>".data "</ul>".data
          (((line :: rest).takeWhile matchBullet).map (fun l => pyStrip (subBulletMarker l)))
        :: scanLinesF fuel ((line :: rest).dropWhile matchBullet)
    else if matchNum line then
      wrapItems "<ol>".data "</ol>".data
          (((line :: rest).takeWhile matchNum).map (fun l => pyStrip (subNumMarker l)))
        :: scanLinesF fuel ((line :: rest).dropWhile matchNum)
    else
      line :: scanLinesF fuel rest

def scanLines (lines : List (List Char)) : List (List Char) :=
  scanLinesF lines.length lines

/-- Python `"<br/>".join(html_lines)` (source line 79). -/
def pyJoin (sep : List Char) : List (List Char) → List Char
  | [] => []
  | [x] => x
  | x :: y :: xs => x ++ sep ++ pyJoin sep (y :: xs)

/-- One greedy repetition count for `(?:<br/>\s*){3,}` (source line 80):
number of consecutive `<br/>`-plus-trailing-whitespace units from the head,
and the remainder after the last unit. -/
def brRunF : ℕ → List Char → ℕ × List Char
  | 0, cs => (0, cs)
  | fuel + 1, cs =>
    match cs with
    | '<' :: 'b' :: 'r' :: '/' :: '>' :: rest =>
      let p := brRunF fuel (rest.dropWhile isSpacePy)
      (p.1 + 1, p.2)
    | _ => (0, cs)

def brRun (cs : List Char) : ℕ × List Char := brRunF cs.length cs

/-- `re.sub(r"(?:<br/>\s*){3,}", "<br/><br/>", html)` (source line 80):
left-to-right scan; a position where at least three units match is replaced
by exactly two break markers, otherwise the scan advances one character. -/
def collapseBrF : ℕ → List Char → List Char
  | 0, cs => cs
  | _ + 1, [] => []
  | fuel + 1, c :: rest =>
    let p := brRun (c :: rest)
    if 3 ≤ p.1 then "<br/><br/>".data ++ collapseBrF fuel p.2
    else c :: collapseBrF fuel rest

def collapseBr (cs : List Char) : List Char := collapseBrF cs.length cs

/-- `convert_markup_to_html` (source lines 30-81) on a string. The
`if text is None: return ""` branch is represented at the call sites by the
`Cell` type: every call in the source passes a string. -/
def convert_markup_to_html (text : String) : String :=
  let t0 := stripCtrlChars text.data
  let t1 := replaceCr (replaceCrLf t0)
  let t2 := replaceBrToken t1
  let t3 := escapeHtml t2
  let t4 := boldSub t3
  let t5 := italicSub t4
  let lines := splitNl t5
  let htmlLines := scanLines lines
  let html := pyJoin "<br/>".data htmlLines
  String.mk (collapseBr html)

/-! ## Python float rendering and parsing (model of the `float` library type)

A float value is modelled as an exact rational. `pyFloatStr` models CPython
`str()`/`repr()` of a finite float: positional decimal when the value is zero
or its magnitude is at least 1e-4 (values of magnitude at least 1e16 would
also use scientific notation, but the converter clamps fractions to
[-100, 100]); scientific notation `d[.ddd]e-0X` when the magnitude is below
1e-4. CPython prints the shortest digit string that round-trips the binary
double; in this rational model the values at hand are parsed decimal
literals, whose exact decimal expansion (bounded here by 30 fractional
digits) is that shortest string. -/

/-- Floor of a rational, computable (denominator is positive). -/
def ratFloor (q : ℚ) : ℤ := q.num.fdiv q.den

/-- Decimal digits of a natural number, most significant first. -/
def natDigitsAux : ℕ → ℕ → List Char
  | 0, _ => []
  | fuel + 1, n => if n = 0 then [] else natDigitsAux fuel (n / 10) ++ [Char.ofNat (48 + n % 10)]

def natDigits (n : ℕ) : List Char := if n = 0 then ['0'] else natDigitsAux (n + 1) n

/-- Successive decimal digits of a rational in `[0, 1)`, stopping at zero
(at most `fuel` digits). -/
def fracDigitsAux : ℕ → ℚ → List Char
  | 0, _ => []
  | fuel + 1, q =>
    if q = 0 then []
    else
      Char.ofNat (48 + (ratFloor (q * 10)).toNat % 10)
        :: fracDigitsAux fuel (q * 10 - ratFloor (q * 10))

/-- Positional rendering of a positive float value: integer part, a dot,
then the fractional digits (a single `0` when the value is integral),
as in `str(100.0) = "100.0"`, `str(0.5) = "0.5"`. -/
def pyPosRepr (a : ℚ) : List Char :=
  let ds := fracDigitsAux 30 (a - ratFloor a)
  natDigits (ratFloor a).toNat ++ '.' :: (if ds = [] then ['0'] else ds)

/-- Smallest `k ≥ 1` with `a * 10 ^ k ≥ 1`, for `0 < a < 1`. -/
def findExpAux : ℕ → ℚ → ℕ
  | 0, _ => 1
  | fuel + 1, a => if 1 ≤ a * 10 then 1 else 1 + findExpAux fuel (a * 10)

/-- Scientific rendering of a positive float value below 1e-4, as in
`str(1e-05) = "1e-05"`: mantissa (with fractional digits only when
nonzero), `e-`, exponent padded to two digits. -/
def pySciRepr (a : ℚ) : List Char :=
  let e := findExpAux 400 a
  let m := a * 10 ^ e
  let ds := fracDigitsAux 30 (m - ratFloor m)
  natDigits (ratFloor m).toNat ++ (if ds = [] then [] else '.' :: ds)
    ++ 'e' :: '-' :: (if e < 10 then '0' :: natDigits e else natDigits e)

/-- Python `str()` of a finite float value, in the rational model. -/
def pyFloatStr (q : ℚ) : String :=
  if q = 0 then "0.0"
  else
    String.mk ((if q < 0 then ['-'] else []) ++
      (if |q| < 1 / 10000 then pySciRepr |q| else pyPosRepr |q|))

/-- Value of a run of decimal digit characters. -/
def digitsVal (ds : List Char) : ℕ :=
  ds.foldl (fun a c => a * 10 + (c.toNat - 48)) 0

/-- Exponent suffix of a float literal, after the `e`/`E`. -/
def floatExpPart (sgn mant : ℚ) (r : List Char) : Option ℚ :=
  let p : Bool × List Char :=
    match r with
    | '+' :: t => (false, t)
    | '-' :: t => (true, t)
    | _ => (false, r)
  let ds := p.2.takeWhile Char.isDigit
  if ds = [] ∨ p.2.dropWhile Char.isDigit ≠ [] then none
  else
    some (sgn * mant *
      (if p.1 then 1 / (10 : ℚ) ^ digitsVal ds else (10 : ℚ) ^ digitsVal ds))

/-- Python `float(s)` on a string: optional surrounding whitespace, optional
sign, decimal digits with an optional point (at least one digit overall),
optional exponent. The special spellings `nan`/`inf` and underscore digit
separators are outside the rational model and are treated as parse
failures. -/
def pyParseFloat (s : String) : Option ℚ :=
  let cs := pyStrip s.data
  let p1 : ℚ × List Char :=
    match cs with
    | '+' :: r => (1, r)
    | '-' :: r => (-1, r)
    | _ => (1, cs)
  let ip := p1.2.takeWhile Char.isDigit
  let cs2 := p1.2.dropWhile Char.isDigit
  let p2 : List Char × List Char :=
    match cs2 with
    | '.' :: r => (r.takeWhile Char.isDigit, r.dropWhile Char.isDigit)
    | _ => ([], cs2)
  if ip = [] ∧ p2.1 = [] then none
  else
    let mant : ℚ := (digitsVal ip : ℚ) + (digitsVal p2.1 : ℚ) / (10 : ℚ) ^ p2.1.length
    match p2.2 with
    | [] => some (p1.1 * mant)
    | 'e' :: r => floatExpPart p1.1 mant r
    | 'E' :: r => floatExpPart p1.1 mant r
    | _ => none

/-! ## Cells, sanitizer and coercers (source lines 25-28, 83-101) -/

/-- A value obtained from a row lookup `qrow.get(...)`: an absent key
(`None`), the pandas missing marker (float `nan`), a string, a finite
float, or a bool. -/
inductive Cell where
  | cnone
  | cnan
  | cstr (v : String)
  | cnum (q : ℚ)
  | cbool (b : Bool)
deriving DecidableEq

/-- Python `str()` of a cell value. -/
def cellToStr : Cell → String
  | Cell.cnone => "None"
  | Cell.cnan => "nan"
  | Cell.cstr v => v
  | Cell.cnum q => pyFloatStr q
  | Cell.cbool b => if b then "True" else "False"

/-- `strip_control` (source lines 25-28): `None` becomes the empty string,
any other value is stringified and has its control characters removed. -/
def strip_control (s : Cell) : String :=
  match s with
  | Cell.cnone => ""
  | _ => String.mk (stripCtrlChars (cellToStr s).data)

/-- `qrow.get(key, default)` followed by `str(...)` (source line 130):
the default string for an absent key, otherwise the stringified cell. -/
def cellGetD (c : Cell) (dflt : String) : String :=
  match c with
  | Cell.cnone => dflt
  | _ => cellToStr c

/-- Python truthiness of a cell value, as used by `if not name_val`
(source line 124): `None`, the empty string, `0.0` and `False` are falsy;
`nan` is truthy. -/
def pyFalsy : Cell → Bool
  | Cell.cnone => true
  | Cell.cnan => false
  | Cell.cstr v => v == ""
  | Cell.cnum q => q == 0
  | Cell.cbool b => !b

/-- `isinstance(x, float) and pd.isna(x)` (source lines 84, 94, 124). -/
def isNanCell : Cell → Bool
  | Cell.cnan => true
  | _ => false

/-- `clean_float` (source lines 83-89): `None`, float `nan` and blank
strings give the default; otherwise `float(x)`, falling back to the default
when the conversion raises. -/
def clean_float (x : Cell) (dflt : Option ℚ) : Option ℚ :=
  match x with
  | Cell.cnone => dflt
  | Cell.cnan => dflt
  | Cell.cstr v =>
    if pyStrip v.data = [] then dflt
    else
      match pyParseFloat v with
      | some q => some q
      | none => dflt
  | Cell.cnum q => some q
  | Cell.cbool b => some (if b then 1 else 0)

/-- `clean_bool` (source lines 91-101). -/
def clean_bool (x : Cell) (dflt : Bool) : Bool :=
  match x with
  | Cell.cbool b => b
  | Cell.cnone => dflt
  | Cell.cnan => dflt
  | _ =>
    let s := String.mk (pyLower (pyStrip (cellToStr x).data))
    if s = "true" ∨ s = "t" ∨ s = "1" ∨ s = "yes" ∨ s = "y" then true
    else if s = "false" ∨ s = "f" ∨ s = "0" ∨ s = "no" ∨ s = "n" then false
    else dflt

/-! ## The question record mapper (source lines 105-182) -/

/-- A normalized row: the canonical fields the mapper reads. An absent
column or missing cell is `Cell.cnone`/`Cell.cnan`. The five choices are
indexed by `Fin 5` (source index `i` runs over `1..5`; here `i : Fin 5`
stands for column `i+1`). -/
structure QRow where
  Name : Cell := Cell.cnone
  Question : Cell := Cell.cnone
  GeneralFeedback : Cell := Cell.cnone
  DefaultGrade : Cell := Cell.cnone
  Shuffle : Cell := Cell.cnone
  Choice : Fin 5 → Cell := fun _ => Cell.cnone
  Fraction : Fin 5 → Cell := fun _ => Cell.cnone
  ChoiceFeedback : Fin 5 → Cell := fun _ => Cell.cnone

/-- One `<answer>` node: the `fraction` attribute string and the two
HTML text payloads. -/
structure AnswerNode where
  fraction : String
  text : String
  feedback : String
deriving DecidableEq

/-- One `<question type="multichoice">` node: the text contents of its
children in document order. -/
structure QuestionNode where
  name : String
  questiontext : String
  defaultgrade : String
  penalty : String
  single : String
  shuffleanswers : String
  answernumbering : String
  generalfeedback : String
  answers : List AnswerNode
deriving DecidableEq

/-- The `name` child (source lines 123-127): the fallback `f"Q{index+1}"`
is taken when the cell is falsy or the float `nan`; the result passes
through `strip_control`. -/
def question_name (qrow : QRow) (index : ℕ) : String :=
  if pyFalsy qrow.Name || isNanCell qrow.Name then
    strip_control (Cell.cstr ("Q" ++ String.mk (natDigits (index + 1))))
  else strip_control qrow.Name

/-- The question text (source line 130):
`convert_markup_to_html(str(qrow.get("Question", "")).strip())`. -/
def question_text_html (qrow : QRow) : String :=
  convert_markup_to_html (String.mk (pyStrip (cellGetD qrow.Question "").data))

/-- The general feedback (source lines 155-156):
`convert_markup_to_html(strip_control(gf))`. -/
def general_feedback_html (qrow : QRow) : String :=
  convert_markup_to_html (strip_control qrow.GeneralFeedback)

/-- Round half to even, as Python fixed-point formatting does. -/
def roundHalfEvenInt (x : ℚ) : ℤ :=
  let f := ratFloor x
  let r := x - f
  if r < 1 / 2 then f
  else if 1 / 2 < r then f + 1
  else if f % 2 = 0 then f else f + 1

/-- Python `f"{g:.2f}"` (source line 136). Negative zero is outside the
rational model and renders without the sign. -/
def formatFixed2 (q : ℚ) : String :=
  let n := roundHalfEvenInt (q * 100)
  let m := n.natAbs
  String.mk ((if n < 0 then ['-'] else []) ++ natDigits (m / 100) ++
    '.' :: (if m % 100 < 10 then '0' :: natDigits (m % 100) else natDigits (m % 100)))

/-- One coerced fraction (source line 142 and 165):
`clean_float(qrow.get(f"Fraction{i}"), default=0.0)`. The default makes the
result total; the source guard `if frac is None: frac = 0.0` (line 166) is
unreachable for the same reason. -/
def coerced_fraction (qrow : QRow) (i : Fin 5) : ℚ :=
  (clean_float (qrow.Fraction i) (some 0)).getD 0

/-- The list comprehension of source line 142. -/
def question_fractions (qrow : QRow) : List ℚ :=
  [coerced_fraction qrow 0, coerced_fraction qrow 1, coerced_fraction qrow 2,
   coerced_fraction qrow 3, coerced_fraction qrow 4]

/-- Python `max(l)` with a default for the empty list (source line 143). -/
def pyMaxList (l : List ℚ) (dflt : ℚ) : ℚ :=
  match l with
  | [] => dflt
  | x :: xs => xs.foldl max x

/-- Source line 144:
`single = fractions.count(max_frac) == 1 and max_frac >= 100.0 - 1e-6`,
computed over the coerced, unclamped fractions. -/
def question_single (qrow : QRow) : Bool :=
  decide ((question_fractions qrow).count (pyMaxList (question_fractions qrow) 0) = 1
    ∧ (100 : ℚ) - 1 / 1000000 ≤ pyMaxList (question_fractions qrow) 0)

/-- The clamped per-answer fraction (source lines 165-168):
`max(-100.0, min(100.0, float(frac)))`. -/
def answer_fraction_value (qrow : QRow) (i : Fin 5) : ℚ :=
  max (-100 : ℚ) (min 100 (coerced_fraction qrow i))

/-- The loop body for one answer (source lines 161-180): the `fraction`
attribute is `str(frac)` of the clamped value. -/
def mkAnswer (qrow : QRow) (i : Fin 5) : AnswerNode :=
  { fraction := pyFloatStr (answer_fraction_value qrow i)
  , text := convert_markup_to_html (strip_control (qrow.Choice i))
  , feedback := convert_markup_to_html (strip_control (qrow.ChoiceFeedback i)) }

/-- `question_multichoice_xml` (source lines 114-182); the `for i in
range(1, 6)` loop is unrolled into the five `mkAnswer` applications. -/
def question_multichoice_xml (qrow : QRow) (index : ℕ) : QuestionNode :=
  { name := question_name qrow index
  , questiontext := question_text_html qrow
  , defaultgrade := formatFixed2 ((clean_float qrow.DefaultGrade (some 5)).getD 5)
  , penalty := "0.0"
  , single := if question_single qrow then "true" else "false"
  , shuffleanswers := if clean_bool qrow.Shuffle true then "true" else "false"
  , answernumbering := "ABCD"
  , generalfeedback := general_feedback_html qrow
  , answers := [mkAnswer qrow 0, mkAnswer qrow 1, mkAnswer qrow 2,
                mkAnswer qrow 3, mkAnswer qrow 4] }

/-! ## The document assembler (source lines 226-248) -/

/-- The category text of `add_category` (source lines 229-233):
`f"$course$/{category_name}" if category_name else "$course$/Default"`. -/
def add_category_text (category_name : String) : String :=
  if category_name ≠ "" then "$course$/" ++ category_name else "$course$/Default"

/-- The `df.iterrows()` loop of source lines 241-243: one question node per
row, at consecutive indices starting from `idx`. -/
def map_rows (idx : ℕ) : List QRow → List QuestionNode
  | [] => []
  | r :: rs => question_multichoice_xml r idx :: map_rows (idx + 1) rs

/-- The assembled document: the category node text followed by the question
nodes. -/
structure Quiz where
  category_text : String
  questions : List QuestionNode
deriving DecidableEq

/-- `excel_to_moodle_xml` (source lines 235-248) restricted to its
algorithmic content: reading the workbook, normalising columns and
serialising the tree are external collaborators. The pandas default row
index is `0, 1, 2, ...`, i.e. the positional index. -/
def excel_to_moodle_xml (category : String) (rows : List QRow) : Quiz :=
  { category_text := add_category_text category
  , questions := map_rows 0 rows }

/-! ## Predicates used to state the claims -/

/-- A character that is plain for the translator: not a control character,
not a markup or escaping-relevant character, not a quote, not a line
break. -/
def plainTextChar (c : Char) : Bool :=
  !(isCtrl c) && !(c == '*') && !(c == '&') && !(c == '<') && !(c == '>') &&
  !(c == '"') && !(c == Char.ofNat 39) && !(c == '\n') && !(c == '\r')

/-- A string with no markup tokens (asterisks, `[br]`, line breaks, list
marker prefixes), none of the escaped characters, and no control
characters. -/
def plainText (s : String) : Bool :=
  s.data.all plainTextChar && !(containsSub "[br]".data s.data) &&
  !(matchBullet s.data) && !(matchNum s.data)

/-- A character allowed in a plain (non-scientific) decimal rendering. -/
def plainDecChar (c : Char) : Bool := c.isDigit || c == '.' || c == '-'

/-- A plain decimal string: digits, a decimal point and a sign only; in
particular no exponent marker. -/
def isPlainDecimal (s : String) : Bool := s.data.all plainDecChar

/-! ## Concrete rows used as witnesses and counterexamples -/

/-- A row carrying only the five numeric fraction cells. -/
def fractionRow (a b c d e : ℚ) : QRow :=
  { Fraction := fun i =>
      if i.val = 0 then Cell.cnum a else if i.val = 1 then Cell.cnum b
      else if i.val = 2 then Cell.cnum c else if i.val = 3 then Cell.cnum d
      else Cell.cnum e }

/-- A row with every cell missing. -/
def emptyRow : QRow := {}

/-- A row whose name cell is the blank string. -/
def blankNameRow : QRow := { Name := Cell.cstr "" }

/-- A row whose name cell contains a control character. -/
def ctrlNameRow : QRow := { Name := Cell.cstr "a\x01b" }

/-- A row whose free-text cells all hold the pandas missing marker `nan`. -/
def nanFeedbackRow : QRow :=
  { GeneralFeedback := Cell.cnan, Choice := fun _ => Cell.cnan,
    ChoiceFeedback := fun _ => Cell.cnan }

/-! ## Helper lemmas -/


theorem replaceCrLf_eq_self (cs : List Char) (h : '\r' ∉ cs) : replaceCrLf cs = cs := by
  induction cs using replaceCrLf.induct with
  | case1 rest ih => simp at h
  | case2 c rest h1 ih =>
    simp only [List.mem_cons, not_or] at h
    rw [replaceCrLf]
    · exact congrArg _ (ih h.2)
    · exact h1
  | case3 => rfl

theorem boldSubF_eq_self (fuel : ℕ) (cs : List Char) (h : '*' ∉ cs) :
    boldSubF fuel cs = cs := by
  induction fuel, cs using boldSubF.induct with
  | case1 cs => rfl
  | case2 fuel rest content rest2 hsplit ih => simp at h
  | case3 fuel rest hsplit ih => simp at h
  | case4 fuel c rest h1 ih =>
    simp only [List.mem_cons, not_or] at h
    rw [boldSubF]
    · exact congrArg _ (ih h.2)
    · exact h1
  | case5 fuel => rfl

theorem italicSubF_eq_self (fuel : ℕ) (prev : Option Char) (cs : List Char) (h : '*' ∉ cs) :
    italicSubF fuel prev cs = cs := by
  induction fuel, prev, cs using italicSubF.induct with
  | case1 prev cs => rfl
  | case2 fuel prev => rfl
  | case3 fuel prev c rest hcond content rest2 hsplit ih =>
    simp only [List.mem_cons, not_or] at h
    exact absurd hcond.1.symm h.1
  | case4 fuel prev c rest hcond hsplit ih =>
    simp only [List.mem_cons, not_or] at h
    exact absurd hcond.1.symm h.1
  | case5 fuel prev c rest hcond ih =>
    simp only [List.mem_cons, not_or] at h
    rw [italicSubF, if_neg hcond]
    exact congrArg _ (ih h.2)

theorem stripCtrlChars_eq_self (cs : List Char) (h : ∀ c ∈ cs, isCtrl c = false) :
    stripCtrlChars cs = cs := by
  unfold stripCtrlChars
  rw [List.filter_eq_self]
  intro c hc
  simp [h c hc]

theorem replaceCr_eq_self (cs : List Char) (h : '\r' ∉ cs) : replaceCr cs = cs := by
  induction cs with
  | nil => rfl
  | cons c rest ih =>
    simp only [List.mem_cons, not_or] at h
    unfold replaceCr at ih ⊢
    rw [List.map_cons, if_neg (fun hc => h.1 hc.symm), ih h.2]

theorem containsSub_tail (pat : List Char) (c : Char) (rest : List Char)
    (h : containsSub pat (c :: rest) = false) : containsSub pat rest = false := by
  rw [containsSub] at h
  exact (Bool.or_eq_false_iff.mp h).2

theorem replaceBrToken_eq_self (cs : List Char)
    (h : containsSub "[br]".data cs = false) : replaceBrToken cs = cs := by
  induction cs using replaceBrToken.induct with
  | case1 rest ih =>
    rw [containsSub] at h
    simp [startsWithL] at h
  | case2 c rest h1 ih =>
    rw [replaceBrToken]
    · exact congrArg _ (ih (containsSub_tail _ _ _ h))
    · exact h1
  | case3 => rfl

theorem escapeHtml_eq_self (cs : List Char) (h : ∀ c ∈ cs, escChar c = [c]) :
    escapeHtml cs = cs := by
  induction cs with
  | nil => rfl
  | cons c rest ih =>
    rw [escapeHtml, h c (by simp), ih]
    · rfl
    · intro x hx; exact h x (by simp [hx])

theorem splitNl_no_newline (cs : List Char) (h : '\n' ∉ cs) : splitNl cs = [cs] := by
  induction cs with
  | nil => rfl
  | cons c rest ih =>
    simp only [List.mem_cons, not_or] at h
    rw [splitNl, if_neg (fun hc => h.1 hc.symm), ih h.2]

theorem scanLinesF_eq_self (fuel : ℕ) (lines : List (List Char))
    (h : ∀ l ∈ lines, matchBullet l = false ∧ matchNum l = false) :
    scanLinesF fuel lines = lines := by
  induction fuel generalizing lines with
  | zero => rfl
  | succ fuel ih =>
    match lines with
    | [] => rfl
    | line :: rest =>
      have hl := h line (by simp)
      rw [scanLinesF, if_neg (by simp [hl.1]), if_neg (by simp [hl.2])]
      exact congrArg _ (ih rest (fun l hl2 => h l (by simp [hl2])))

theorem brRunF_cons_ne (fuel : ℕ) (c : Char) (rest : List Char) (h : c ≠ '<') :
    brRunF fuel (c :: rest) = (0, c :: rest) := by
  cases fuel with
  | zero => rfl
  | succ fuel =>
    rw [brRunF]
    rintro rest1 heq
    rw [List.cons.injEq] at heq
    exact h heq.1

theorem brRunF_nil (fuel : ℕ) : brRunF fuel [] = (0, []) := by
  cases fuel <;> rfl

theorem collapseBrF_nil (fuel : ℕ) : collapseBrF fuel [] = [] := by
  cases fuel <;> rfl

theorem collapseBrF_eq_self (fuel : ℕ) (cs : List Char) (h : '<' ∉ cs) :
    collapseBrF fuel cs = cs := by
  induction fuel generalizing cs with
  | zero => rfl
  | succ fuel ih =>
    match cs with
    | [] => rfl
    | c :: rest =>
      simp only [List.mem_cons, not_or] at h
      rw [collapseBrF]
      have hrun : brRun (c :: rest) = (0, c :: rest) :=
        brRunF_cons_ne _ c rest (fun hc => h.1 hc.symm)
      rw [hrun]
      simp only []
      rw [if_neg (by omega)]
      exact congrArg _ (ih rest h.2)

theorem plainTextChar_props (c : Char) (h : plainTextChar c = true) :
    isCtrl c = false ∧ c ≠ '*' ∧ c ≠ '\n' ∧ c ≠ '\r' ∧ c ≠ '<' ∧ escChar c = [c] := by
  unfold plainTextChar at h
  simp only [Bool.and_eq_true, Bool.not_eq_true', beq_eq_false_iff_ne, ne_eq] at h
  obtain ⟨⟨⟨⟨⟨⟨⟨⟨h0, h1⟩, h2⟩, h3⟩, h4⟩, h5⟩, h6⟩, h7⟩, h8⟩ := h
  refine ⟨h0, h1, h7, h8, h3, ?_⟩
  unfold escChar
  rw [if_neg h2, if_neg h3, if_neg h4, if_neg h5, if_neg h6]

theorem convert_eq_self (s : String) (h : plainText s = true) :
    convert_markup_to_html s = s := by
  unfold plainText at h
  simp only [Bool.and_eq_true, Bool.not_eq_true', List.all_eq_true] at h
  obtain ⟨⟨⟨hall, hbr⟩, hbul⟩, hnum⟩ := h
  have hchar := fun c hc => plainTextChar_props c (hall c hc)
  have pipe : convert_markup_to_html s = String.mk (collapseBr (pyJoin "<br/>".data
      (scanLines (splitNl (italicSub (boldSub (escapeHtml (replaceBrToken
        (replaceCr (replaceCrLf (stripCtrlChars s.data))))))))))) := rfl
  rw [pipe]
  rw [stripCtrlChars_eq_self s.data (fun c hc => (hchar c hc).1)]
  rw [replaceCrLf_eq_self s.data (fun hc => (hchar _ hc).2.2.2.1 rfl)]
  rw [replaceCr_eq_self s.data (fun hc => (hchar _ hc).2.2.2.1 rfl)]
  rw [replaceBrToken_eq_self s.data hbr]
  rw [escapeHtml_eq_self s.data (fun c hc => (hchar c hc).2.2.2.2.2)]
  rw [boldSub, boldSubF_eq_self _ s.data (fun hc => (hchar _ hc).2.1 rfl)]
  rw [italicSub, italicSubF_eq_self _ _ s.data (fun hc => (hchar _ hc).2.1 rfl)]
  rw [splitNl_no_newline s.data (fun hc => (hchar _ hc).2.2.1 rfl)]
  rw [scanLines, scanLinesF_eq_self _ [s.data]
    (by intro l hl; rw [List.mem_singleton] at hl; subst hl; exact ⟨hbul, hnum⟩)]
  rw [show pyJoin "<br/>".data [s.data] = s.data from rfl]
  rw [collapseBr, collapseBrF_eq_self _ s.data (fun hc => (hchar _ hc).2.2.2.2.1 rfl)]

theorem takeWhile_all_append (p : List Char → Bool) (ls rest : List (List Char))
    (h1 : ∀ l ∈ ls, p l = true) (h2 : ∀ l ∈ rest.take 1, p l = false) :
    (ls ++ rest).takeWhile p = ls ∧ (ls ++ rest).dropWhile p = rest := by
  induction ls with
  | nil =>
    simp only [List.nil_append]
    cases rest with
    | nil => simp
    | cons r rs =>
      have hr := h2 r (by simp)
      exact ⟨List.takeWhile_cons_of_neg (by simp [hr]),
             List.dropWhile_cons_of_neg (by simp [hr])⟩
  | cons x xs ih =>
    have hx := h1 x (by simp)
    have hih := ih (fun l hl => h1 l (by simp [hl]))
    simp only [List.cons_append]
    exact ⟨by rw [List.takeWhile_cons_of_pos (by simp [hx]), hih.1],
           by rw [List.dropWhile_cons_of_pos (by simp [hx]), hih.2]⟩

theorem matchNum_not_bullet (l : List Char) (h : matchNum l = true) :
    matchBullet l = false := by
  unfold matchBullet
  split
  · next c rest heq =>
    simp only [matchNum, heq] at h
    rw [show List.takeWhile Char.isDigit ('-' :: c :: rest) = [] from rfl] at h
    simp at h
  · rfl

theorem scanLinesF_bullet_run (fuel : ℕ) (ls rest : List (List Char))
    (h1 : ∀ l ∈ ls, matchBullet l = true) (hne : ls ≠ [])
    (h2 : ∀ l ∈ rest.take 1, matchBullet l = false) :
    scanLinesF (fuel + 1) (ls ++ rest) =
      wrapItems "<ul>".data "</ul>".data (ls.map (fun l => pyStrip (subBulletMarker l)))
        :: scanLinesF fuel rest := by
  match ls, hne with
  | l :: ls2, _ =>
    have hl := h1 l (by simp)
    have htd := takeWhile_all_append matchBullet (l :: ls2) rest h1 h2
    rw [List.cons_append, scanLinesF, if_pos hl, ← List.cons_append, htd.1, htd.2]

theorem scanLinesF_num_run (fuel : ℕ) (ls rest : List (List Char))
    (h1 : ∀ l ∈ ls, matchNum l = true) (hne : ls ≠ [])
    (h2 : ∀ l ∈ rest.take 1, matchNum l = false) :
    scanLinesF (fuel + 1) (ls ++ rest) =
      wrapItems "<ol>".data "</ol>".data (ls.map (fun l => pyStrip (subNumMarker l)))
        :: scanLinesF fuel rest := by
  match ls, hne with
  | l :: ls2, _ =>
    have hl := h1 l (by simp)
    have hnb : matchBullet l = false := matchNum_not_bullet l hl
    have htd := takeWhile_all_append matchNum (l :: ls2) rest h1 h2
    rw [List.cons_append, scanLinesF, if_neg (by simp [hnb]), if_pos hl,
      ← List.cons_append, htd.1, htd.2]

theorem brj_length (k : ℕ) : ((List.replicate k "<br/>".data).flatten).length = 5 * k := by
  induction k with
  | zero => rfl
  | succ k ih =>
    rw [List.replicate_succ, List.flatten_cons, List.length_append, ih,
      show ("<br/>".data.length) = 5 from rfl]
    omega

theorem dropWhile_brj (k : ℕ) (rest : List Char)
    (hrest : rest = [] ∨ ∃ c cs, rest = c :: cs ∧ isSpacePy c = false) :
    ((List.replicate k "<br/>".data).flatten ++ rest).dropWhile isSpacePy =
      (List.replicate k "<br/>".data).flatten ++ rest := by
  cases k with
  | zero =>
    simp only [List.replicate_zero, List.flatten_nil, List.nil_append]
    rcases hrest with rfl | ⟨c, cs, rfl, hc⟩
    · rfl
    · exact List.dropWhile_cons_of_neg (by simp [hc])
  | succ k =>
    rw [List.replicate_succ, List.flatten_cons, List.append_assoc]
    exact List.dropWhile_cons_of_neg (by decide)

theorem brRunF_replicate (k : ℕ) (fuel : ℕ) (rest : List Char) (hfuel : k ≤ fuel)
    (hrest : rest = [] ∨ ∃ c cs, rest = c :: cs ∧ c ≠ '<' ∧ isSpacePy c = false) :
    brRunF fuel ((List.replicate k "<br/>".data).flatten ++ rest) = (k, rest) := by
  induction k generalizing fuel with
  | zero =>
    simp only [List.replicate_zero, List.flatten_nil, List.nil_append]
    rcases hrest with rfl | ⟨c, cs, rfl, hc, _⟩
    · exact brRunF_nil fuel
    · exact brRunF_cons_ne fuel c cs hc
  | succ k ih =>
    obtain ⟨fuel2, rfl⟩ : ∃ f, fuel = f + 1 := ⟨fuel - 1, by omega⟩
    rw [List.replicate_succ, List.flatten_cons, List.append_assoc]
    rw [show ("<br/>".data ++ ((List.replicate k "<br/>".data).flatten ++ rest)) =
      '<' :: 'b' :: 'r' :: '/' :: '>' :: ((List.replicate k "<br/>".data).flatten ++ rest)
      from rfl]
    rw [brRunF]
    rw [dropWhile_brj k rest (by
      rcases hrest with rfl | ⟨c, cs, hcs, _, hc⟩
      · exact Or.inl rfl
      · exact Or.inr ⟨c, cs, hcs, hc⟩)]
    rw [ih fuel2 (by omega) ]

theorem collapseBrF_big (fuel : ℕ) (c : Char) (rest : List Char)
    (h : 3 ≤ (brRun (c :: rest)).1) :
    collapseBrF (fuel + 1) (c :: rest) =
      "<br/><br/>".data ++ collapseBrF fuel (brRun (c :: rest)).2 := by
  rw [collapseBrF]
  show (if 3 ≤ (brRun (c :: rest)).1 then _ else _) = _
  rw [if_pos h]

theorem collapseBrF_small (fuel : ℕ) (c : Char) (rest : List Char)
    (h : ¬ 3 ≤ (brRun (c :: rest)).1) :
    collapseBrF (fuel + 1) (c :: rest) = c :: collapseBrF fuel rest := by
  rw [collapseBrF]
  show (if 3 ≤ (brRun (c :: rest)).1 then _ else _) = _
  rw [if_neg h]

theorem collapseBrF_singleton (fuel : ℕ) (c : Char) (h : c ≠ '<') :
    collapseBrF fuel [c] = [c] := by
  cases fuel with
  | zero => rfl
  | succ fuel =>
    have h0 : brRun [c] = (0, [c]) := brRunF_cons_ne 1 c [] h
    rw [collapseBrF_small fuel c [] (by rw [h0]; omega), collapseBrF_nil]

theorem collapseBrF_runA (fuel m : ℕ) (hm : 3 ≤ m) (hfuel : 1 ≤ fuel) :
    collapseBrF fuel ((List.replicate m "<br/>".data).flatten) = "<br/><br/>".data := by
  obtain ⟨f2, rfl⟩ : ∃ f, fuel = f + 1 := ⟨fuel - 1, by omega⟩
  obtain ⟨j, rfl⟩ : ∃ j, m = j + 3 := ⟨m - 3, by omega⟩
  have hsh : (List.replicate (j + 3) "<br/>".data).flatten =
      '<' :: 'b' :: 'r' :: '/' :: '>' :: (List.replicate (j + 2) "<br/>".data).flatten := by
    rw [List.replicate_succ, List.flatten_cons]
    rfl
  have hrun : brRun ((List.replicate (j + 3) "<br/>".data).flatten) = (j + 3, []) := by
    rw [brRun]
    rw [show (List.replicate (j + 3) "<br/>".data).flatten =
      (List.replicate (j + 3) "<br/>".data).flatten ++ [] by simp]
    exact brRunF_replicate (j + 3) _ [] (by rw [List.length_append, brj_length]; omega)
      (Or.inl rfl)
  rw [hsh] at hrun ⊢
  rw [collapseBrF_big f2 _ _ (by rw [hrun]; omega), hrun, collapseBrF_nil]
  rfl

theorem collapseBrF_runB (fuel m : ℕ) (hm : 3 ≤ m) (hfuel : 1 ≤ fuel) :
    collapseBrF fuel ((List.replicate m "<br/>".data).flatten ++ ['b']) =
      "<br/><br/>".data ++ ['b'] := by
  obtain ⟨f2, rfl⟩ : ∃ f, fuel = f + 1 := ⟨fuel - 1, by omega⟩
  obtain ⟨j, rfl⟩ : ∃ j, m = j + 3 := ⟨m - 3, by omega⟩
  have hsh : (List.replicate (j + 3) "<br/>".data).flatten ++ ['b'] =
      '<' :: 'b' :: 'r' :: '/' :: '>' :: ((List.replicate (j + 2) "<br/>".data).flatten ++ ['b']) := by
    rw [List.replicate_succ, List.flatten_cons, List.append_assoc]
    rfl
  have hrun : brRun ((List.replicate (j + 3) "<br/>".data).flatten ++ ['b']) = (j + 3, ['b']) :=
    brRunF_replicate (j + 3) _ ['b'] (by rw [List.length_append, brj_length]; omega)
      (Or.inr ⟨'b', [], rfl, by decide, by decide⟩)
  rw [hsh] at hrun ⊢
  rw [collapseBrF_big f2 _ _ (by rw [hrun]; omega), hrun,
    collapseBrF_singleton f2 'b' (by decide)]

theorem containsSub_br_of_no_bracket (cs : List Char) (h : '[' ∉ cs) :
    containsSub "[br]".data cs = false := by
  induction cs with
  | nil => rfl
  | cons c rest ih =>
    simp only [List.mem_cons, not_or] at h
    rw [containsSub, startsWithL, ih h.2]
    simp only [Bool.or_false, Bool.and_eq_false_iff, beq_eq_false_iff_ne, ne_eq]
    exact Or.inl (fun hc => h.1 hc)

theorem splitNl_replicate_b (k : ℕ) :
    splitNl (List.replicate k '\n' ++ ['b']) =
      List.replicate k ([] : List Char) ++ [['b']] := by
  induction k with
  | zero => rfl
  | succ k ih =>
    rw [List.replicate_succ, List.cons_append, splitNl, if_pos rfl, ih,
      List.replicate_succ, List.cons_append]

theorem splitNl_a_b (j : ℕ) :
    splitNl ('a' :: (List.replicate (j + 1) '\n' ++ ['b'])) =
      ['a'] :: (List.replicate j ([] : List Char) ++ [['b']]) := by
  rw [splitNl, if_neg (by decide), splitNl_replicate_b (j + 1), List.replicate_succ,
    List.cons_append]

theorem scanLines_plain_a_b (j : ℕ) :
    scanLines (['a'] :: (List.replicate j ([] : List Char) ++ [['b']])) =
      ['a'] :: (List.replicate j ([] : List Char) ++ [['b']]) := by
  apply scanLinesF_eq_self
  intro l hl
  simp only [List.mem_cons, List.mem_append, List.mem_replicate, List.not_mem_nil,
    or_false] at hl
  rcases hl with rfl | ⟨_, rfl⟩ | rfl <;> exact ⟨by decide, by decide⟩

theorem pyJoin_empties_b (j : ℕ) :
    pyJoin "<br/>".data (List.replicate j ([] : List Char) ++ [['b']]) =
      (List.replicate j "<br/>".data).flatten ++ ['b'] := by
  induction j with
  | zero => rfl
  | succ j ih =>
    rw [List.replicate_succ, List.cons_append]
    rcases hsh : List.replicate j ([] : List Char) ++ [['b']] with _ | ⟨y, ys⟩
    · exact absurd hsh (by simp)
    · rw [pyJoin, ← hsh, ih, List.replicate_succ, List.flatten_cons, List.nil_append,
        List.append_assoc]

theorem pyJoin_a_b (j : ℕ) :
    pyJoin "<br/>".data (['a'] :: (List.replicate j ([] : List Char) ++ [['b']])) =
      'a' :: ((List.replicate (j + 1) "<br/>".data).flatten ++ ['b']) := by
  rcases hsh : List.replicate j ([] : List Char) ++ [['b']] with _ | ⟨y, ys⟩
  · exact absurd hsh (by simp)
  · rw [pyJoin, ← hsh, pyJoin_empties_b, List.replicate_succ, List.flatten_cons,
      List.append_assoc]
    rfl

theorem convert_lineBreak_run (k : ℕ) (hk : 3 ≤ k) :
    convert_markup_to_html (String.mk ('a' :: (List.replicate k '\n' ++ ['b']))) =
      "a<br/><br/>b" := by
  obtain ⟨j, rfl⟩ : ∃ j, k = j + 1 := ⟨k - 1, by omega⟩
  set cs := 'a' :: (List.replicate (j + 1) '\n' ++ ['b']) with hcs
  have hmem : ∀ c ∈ cs, c = 'a' ∨ c = '\n' ∨ c = 'b' := by
    intro c hc
    rw [hcs] at hc
    simp only [List.mem_cons, List.mem_append, List.mem_replicate, List.mem_singleton] at hc
    tauto
  have pipe : convert_markup_to_html (String.mk cs) = String.mk (collapseBr
      (pyJoin "<br/>".data (scanLines (splitNl (italicSub (boldSub (escapeHtml
        (replaceBrToken (replaceCr (replaceCrLf (stripCtrlChars cs))))))))))) := rfl
  rw [pipe]
  rw [stripCtrlChars_eq_self cs (by
    intro c hc; rcases hmem c hc with rfl | rfl | rfl <;> decide)]
  rw [replaceCrLf_eq_self cs (by
    intro hc; rcases hmem _ hc with h | h | h <;> simp at h)]
  rw [replaceCr_eq_self cs (by
    intro hc; rcases hmem _ hc with h | h | h <;> simp at h)]
  rw [replaceBrToken_eq_self cs (containsSub_br_of_no_bracket cs (by
    intro hc; rcases hmem _ hc with h | h | h <;> simp at h))]
  rw [escapeHtml_eq_self cs (by
    intro c hc; rcases hmem c hc with rfl | rfl | rfl <;> decide)]
  rw [boldSub, boldSubF_eq_self _ cs (by
    intro hc; rcases hmem _ hc with h | h | h <;> simp at h)]
  rw [italicSub, italicSubF_eq_self _ _ cs (by
    intro hc; rcases hmem _ hc with h | h | h <;> simp at h)]
  rw [hcs, splitNl_a_b j, scanLines_plain_a_b j, pyJoin_a_b j]
  rw [collapseBr]
  rw [show ('a' :: ((List.replicate (j + 1) "<br/>".data).flatten ++ ['b'])).length =
    ((List.replicate (j + 1) "<br/>".data).flatten ++ ['b']).length + 1 from rfl]
  have h0 : brRun ('a' :: ((List.replicate (j + 1) "<br/>".data).flatten ++ ['b'])) =
      (0, 'a' :: ((List.replicate (j + 1) "<br/>".data).flatten ++ ['b'])) :=
    brRunF_cons_ne _ 'a' _ (by decide)
  rw [collapseBrF_small _ 'a' _ (by rw [h0]; omega)]
  rw [collapseBrF_runB _ (j + 1) (by omega) (by
    rw [List.length_append, brj_length]; omega)]
  rfl

theorem digitChar_isDigit (m : ℕ) : (Char.ofNat (48 + m % 10)).isDigit = true := by
  have h : m % 10 < 10 := Nat.mod_lt _ (by omega)
  set r := m % 10 with hr
  interval_cases r <;> decide

theorem natDigitsAux_digits (fuel n : ℕ) : ∀ c ∈ natDigitsAux fuel n, c.isDigit = true := by
  induction fuel generalizing n with
  | zero => intro c hc; simp [natDigitsAux] at hc
  | succ fuel ih =>
    intro c hc
    rw [natDigitsAux] at hc
    by_cases hn : n = 0
    · rw [if_pos hn] at hc; simp at hc
    · rw [if_neg hn, List.mem_append] at hc
      rcases hc with hc | hc
      · exact ih _ c hc
      · rw [List.mem_singleton] at hc; subst hc; exact digitChar_isDigit n

theorem natDigits_digits (n : ℕ) : ∀ c ∈ natDigits n, c.isDigit = true := by
  intro c hc
  rw [natDigits] at hc
  by_cases hn : n = 0
  · rw [if_pos hn, List.mem_singleton] at hc; subst hc; decide
  · rw [if_neg hn] at hc; exact natDigitsAux_digits _ _ c hc

theorem fracDigitsAux_digits (fuel : ℕ) (q : ℚ) :
    ∀ c ∈ fracDigitsAux fuel q, c.isDigit = true := by
  induction fuel generalizing q with
  | zero => intro c hc; simp [fracDigitsAux] at hc
  | succ fuel ih =>
    intro c hc
    rw [fracDigitsAux] at hc
    by_cases hq : q = 0
    · rw [if_pos hq] at hc; simp at hc
    · rw [if_neg hq, List.mem_cons] at hc
      rcases hc with rfl | hc
      · exact digitChar_isDigit _
      · exact ih _ c hc

theorem all_plainDec_of_digits (l : List Char) (h : ∀ c ∈ l, c.isDigit = true) :
    l.all plainDecChar = true := by
  rw [List.all_eq_true]
  intro c hc
  simp [plainDecChar, h c hc]

theorem pyFloatStr_plain (q : ℚ) (h : q = 0 ∨ 1 / 10000 ≤ |q|) :
    isPlainDecimal (pyFloatStr q) = true := by
  rcases h with rfl | h
  · decide
  · have hq0 : q ≠ 0 := by
      intro hq
      rw [hq, abs_zero] at h
      norm_num at h
    rw [pyFloatStr, if_neg hq0, isPlainDecimal]
    rw [show (String.mk ((if q < 0 then ['-'] else []) ++
      (if |q| < 1 / 10000 then pySciRepr |q| else pyPosRepr |q|))).data =
      (if q < 0 then ['-'] else []) ++
      (if |q| < 1 / 10000 then pySciRepr |q| else pyPosRepr |q|) from rfl]
    rw [if_neg (not_lt.mpr h), List.all_append, Bool.and_eq_true]
    constructor
    · split <;> decide
    · show (natDigits (ratFloor |q|).toNat ++ '.' ::
        (if fracDigitsAux 30 (|q| - ratFloor |q|) = [] then ['0']
         else fracDigitsAux 30 (|q| - ratFloor |q|))).all plainDecChar = true
      rw [List.all_append, Bool.and_eq_true]
      refine ⟨all_plainDec_of_digits _ (natDigits_digits _), ?_⟩
      rw [List.all_cons, Bool.and_eq_true]
      refine ⟨by decide, ?_⟩
      split
      · decide
      · exact all_plainDec_of_digits _ (fracDigitsAux_digits _ _)

theorem map_rows_length (rows : List QRow) (idx : ℕ) :
    (map_rows idx rows).length = rows.length := by
  induction rows generalizing idx with
  | nil => rfl
  | cons r rs ih => rw [map_rows, List.length_cons, List.length_cons, ih]

theorem map_rows_get (rows : List QRow) (idx i : ℕ) (h : i < rows.length)
    (h2 : i < (map_rows idx rows).length) :
    (map_rows idx rows).get ⟨i, h2⟩ =
      question_multichoice_xml (rows.get ⟨i, h⟩) (idx + i) := by
  induction rows generalizing idx i with
  | nil => simp at h
  | cons r rs ih =>
    cases i with
    | zero => rfl
    | succ i =>
      have hi : i < rs.length := by simpa using h
      have hi2 : i < (map_rows (idx + 1) rs).length := by
        rw [map_rows_length]; exact hi
      have harith : idx + (i + 1) = (idx + 1) + i := by omega
      show (map_rows (idx + 1) rs).get ⟨i, hi2⟩ = _
      rw [ih (idx + 1) i hi hi2, harith]
      rfl

theorem digitChar_not_ctrl (m : ℕ) : isCtrl (Char.ofNat (48 + m % 10)) = false := by
  have h : m % 10 < 10 := Nat.mod_lt _ (by omega)
  set r := m % 10 with hr
  interval_cases r <;> decide

theorem natDigitsAux_not_ctrl (fuel n : ℕ) : ∀ c ∈ natDigitsAux fuel n, isCtrl c = false := by
  induction fuel generalizing n with
  | zero => intro c hc; simp [natDigitsAux] at hc
  | succ fuel ih =>
    intro c hc
    rw [natDigitsAux] at hc
    by_cases hn : n = 0
    · rw [if_pos hn] at hc; simp at hc
    · rw [if_neg hn, List.mem_append] at hc
      rcases hc with hc | hc
      · exact ih _ c hc
      · rw [List.mem_singleton] at hc; subst hc; exact digitChar_not_ctrl n

theorem natDigits_not_ctrl (n : ℕ) : ∀ c ∈ natDigits n, isCtrl c = false := by
  intro c hc
  rw [natDigits] at hc
  by_cases hn : n = 0
  · rw [if_pos hn, List.mem_singleton] at hc; subst hc; decide
  · rw [if_neg hn] at hc; exact natDigitsAux_not_ctrl _ _ c hc

theorem fallback_name_eq (index : ℕ) :
    strip_control (Cell.cstr ("Q" ++ String.mk (natDigits (index + 1)))) =
      "Q" ++ String.mk (natDigits (index + 1)) := by
  show String.mk (stripCtrlChars ("Q" ++ String.mk (natDigits (index + 1))).data) = _
  rw [show ("Q" ++ String.mk (natDigits (index + 1))).data =
    'Q' :: natDigits (index + 1) from rfl]
  rw [stripCtrlChars_eq_self]
  · rfl
  · intro c hc
    rw [List.mem_cons] at hc
    rcases hc with rfl | hc
    · decide
    · exact natDigits_not_ctrl _ c hc

/-! ## The claims -/

/-- C2: the mapper coerces the five fraction fields with default 0.0 and
sets single = true iff exactly one of the five coerced fractions attains
their maximum and that maximum is at least 100 - 1e-6; fractions
[100,0,0,0,0] yield single=true, [100,100,0,0,0] and [50,50,0,0,0] yield
single=false. -/
theorem claim_C2_single_answer_detection :
    (∀ (qrow : QRow) (index : ℕ),
      ((question_multichoice_xml qrow index).single = "true" ↔
        ((question_fractions qrow).count (pyMaxList (question_fractions qrow) 0) = 1 ∧
          (100 : ℚ) - 1 / 1000000 ≤ pyMaxList (question_fractions qrow) 0)))
    ∧ (question_multichoice_xml (fractionRow 100 0 0 0 0) 0).single = "true"
    ∧ (question_multichoice_xml (fractionRow 100 100 0 0 0) 0).single = "false"
    ∧ (question_multichoice_xml (fractionRow 50 50 0 0 0) 0).single = "false" := by
  refine ⟨?_, by decide, by decide, by decide⟩
  intro qrow index
  show (if question_single qrow then "true" else "false") = "true" ↔ _
  cases hb : question_single qrow with
  | true =>
    rw [question_single, decide_eq_true_eq] at hb
    exact ⟨fun _ => hb, fun _ => rfl⟩
  | false =>
    rw [question_single, decide_eq_false_iff_not] at hb
    constructor
    · intro habs; exact absurd habs (by decide)
    · intro hp; exact absurd hp hb

/-- C9: single-answer detection is computed over the coerced, unclamped
fractions while the emitted fraction attributes are clamped afterwards:
fractions [150,0,0,0,0] give single=true with first attribute "100.0", and
fractions [150,100,0,0,0] give single=true although the clamped values
[100,100,0,0,0] would give false, so clamping never influences the
decision; the final equation states that the flag depends only on the
unclamped coerced fractions. -/
theorem claim_C9_single_before_clamp :
    (question_multichoice_xml (fractionRow 150 0 0 0 0) 0).single = "true"
    ∧ (question_multichoice_xml (fractionRow 150 0 0 0 0) 0).answers.map AnswerNode.fraction
        = ["100.0", "0.0", "0.0", "0.0", "0.0"]
    ∧ (question_multichoice_xml (fractionRow 150 100 0 0 0) 0).single = "true"
    ∧ (question_multichoice_xml (fractionRow 150 100 0 0 0) 0).answers.map AnswerNode.fraction
        = ["100.0", "100.0", "0.0", "0.0", "0.0"]
    ∧ (∀ qrow : QRow, question_single qrow =
        decide ((question_fractions qrow).count (pyMaxList (question_fractions qrow) 0) = 1 ∧
          (100 : ℚ) - 1 / 1000000 ≤ pyMaxList (question_fractions qrow) 0)) :=
  ⟨by decide, by decide, by decide, by decide, fun _ => rfl⟩

/-- C1, counterexample: the fraction value 1e-5 lies in the clamped range
[-100, 100], yet the emitted fraction attribute of the first answer is the
scientific-notation string "1e-05", which is not a plain decimal string. -/
theorem claim_C1_counterexample :
    ((question_multichoice_xml (fractionRow (1 / 100000) 0 0 0 0) 0).answers.map
        AnswerNode.fraction).head? = some "1e-05"
    ∧ isPlainDecimal "1e-05" = false
    ∧ (-100 : ℚ) ≤ 1 / 100000 ∧ (1 / 100000 : ℚ) ≤ 100 :=
  ⟨by decide, by decide, by decide, by decide⟩

/-- C1 (amended): every emitted answer carries one of the five `mkAnswer`
nodes, and for every row and choice index the fraction attribute is a plain
decimal string, never scientific notation, for any fraction value that is
zero or of magnitude at least 1e-4 (values of smaller nonzero magnitude
render in scientific notation, as the counterexample shows). -/
theorem claim_C1_plain_decimal :
    (∀ (qrow : QRow) (index : ℕ), (question_multichoice_xml qrow index).answers =
      [mkAnswer qrow 0, mkAnswer qrow 1, mkAnswer qrow 2, mkAnswer qrow 3, mkAnswer qrow 4])
    ∧ (∀ (qrow : QRow) (i : Fin 5),
        (answer_fraction_value qrow i = 0 ∨ 1 / 10000 ≤ |answer_fraction_value qrow i|) →
        isPlainDecimal (mkAnswer qrow i).fraction = true) := by
  refine ⟨fun _ _ => rfl, fun qrow i h => ?_⟩
  show isPlainDecimal (pyFloatStr (answer_fraction_value qrow i)) = true
  exact pyFloatStr_plain _ h

/-- C1, witness: the amended theorem applied to a concrete row with
fraction 100 at choice 1. -/
theorem claim_C1_plain_decimal_witness :
    isPlainDecimal (mkAnswer (fractionRow 100 0 0 0 0) 0).fraction = true :=
  claim_C1_plain_decimal.2 (fractionRow 100 0 0 0 0) 0 (Or.inr (by decide))

/-- C3: the translator HTML-escapes the whole text before the bold pass,
the italic pass runs after bold (the pipeline equation exhibits the order),
bold replaces each shortest non-empty span between two ** pairs with a
strong span; translate of "**bold**" is exactly the strong span with no em
tag, and translate of "*italic*" is the em span. -/
theorem claim_C3_escape_then_markup :
    (∀ s : String, convert_markup_to_html s = String.mk (collapseBr (pyJoin "<br/>".data
      (scanLines (splitNl (italicSub (boldSub (escapeHtml (replaceBrToken (replaceCr
        (replaceCrLf (stripCtrlChars s.data))))))))))))
    ∧ convert_markup_to_html "**bold**" = "<strong>bold</strong>"
    ∧ containsSub "<em>".data (convert_markup_to_html "**bold**").data = false
    ∧ convert_markup_to_html "*italic*" = "<em>italic</em>"
    ∧ convert_markup_to_html "**a** and **b**" = "<strong>a</strong> and <strong>b</strong>"
    ∧ convert_markup_to_html "a & b <c>" = "a &amp; b &lt;c&gt;" :=
  ⟨fun _ => rfl, by decide, by decide, by decide, by decide, by decide⟩

/-- C4: in the line scan, every maximal contiguous run of bullet lines
becomes exactly one unordered-list block with one item per line (marker
stripped, content trimmed), and likewise for digit-prefixed lines into one
ordered-list block; translate of "- a\n- b\n- c" is one ul with the three
items a, b, c in order, and translate of "1. x\n2. y" is one ol with the
two items x, y in order. -/
theorem claim_C4_list_runs :
    (∀ (fuel : ℕ) (ls rest : List (List Char)),
      (∀ l ∈ ls, matchBullet l = true) → ls ≠ [] →
      (∀ l ∈ rest.take 1, matchBullet l = false) →
      scanLinesF (fuel + 1) (ls ++ rest) =
        wrapItems "<ul>".data "</ul>".data
          (ls.map (fun l => pyStrip (subBulletMarker l))) :: scanLinesF fuel rest)
    ∧ (∀ (fuel : ℕ) (ls rest : List (List Char)),
      (∀ l ∈ ls, matchNum l = true) → ls ≠ [] →
      (∀ l ∈ rest.take 1, matchNum l = false) →
      scanLinesF (fuel + 1) (ls ++ rest) =
        wrapItems "<ol>".data "</ol>".data
          (ls.map (fun l => pyStrip (subNumMarker l))) :: scanLinesF fuel rest)
    ∧ convert_markup_to_html "- a\n- b\n- c" = "<ul><li>a</li><li>b</li><li>c</li></ul>"
    ∧ convert_markup_to_html "1. x\n2. y" = "<ol><li>x</li><li>y</li></ol>" :=
  ⟨scanLinesF_bullet_run, scanLinesF_num_run, by decide, by decide⟩

/-- C4, witness: the bullet-run equation applied to the concrete run
["- a", "- b"] followed by a non-list line. -/
theorem claim_C4_witness :
    scanLinesF (0 + 1) (["- a".data, "- b".data] ++ [['x']]) =
      wrapItems "<ul>".data "</ul>".data
        (["- a".data, "- b".data].map (fun l => pyStrip (subBulletMarker l)))
        :: scanLinesF 0 [['x']] :=
  claim_C4_list_runs.1 0 ["- a".data, "- b".data] [['x']] (by decide) (by decide) (by decide)

/-- C5: after joining lines with explicit break markers, every run of three
or more consecutive break markers collapses to exactly two; a source text
with a run of four or more consecutive line breaks produces exactly two
break markers at that position. -/
theorem claim_C5_collapse_breaks :
    (∀ k : ℕ, 3 ≤ k →
      collapseBr ((List.replicate k "<br/>".data).flatten) = "<br/><br/>".data)
    ∧ (∀ k : ℕ, 4 ≤ k →
        convert_markup_to_html (String.mk ('a' :: (List.replicate k '\n' ++ ['b']))) =
          "a<br/><br/>b") := by
  constructor
  · intro k hk
    rw [collapseBr]
    exact collapseBrF_runA _ k hk (by rw [brj_length]; omega)
  · intro k hk
    exact convert_lineBreak_run k (by omega)

/-- C5, witness: the collapse equation at a run of three break markers and
the full translation at a run of four source line breaks. -/
theorem claim_C5_witness :
    collapseBr ((List.replicate 3 "<br/>".data).flatten) = "<br/><br/>".data
    ∧ convert_markup_to_html (String.mk ('a' :: (List.replicate 4 '\n' ++ ['b']))) =
        "a<br/><br/>b" :=
  ⟨claim_C5_collapse_breaks.1 3 (by decide), claim_C5_collapse_breaks.2 4 (by decide)⟩

/-- C6: the assembler emits one category node whose text is
"$course$/" ++ name for a non-empty name and "$course$/Default" for the
empty name, followed by one question node per input row in exactly the
input row order, never reordering or deduplicating rows. -/
theorem claim_C6_assembler :
    (∀ (category : String) (rows : List QRow),
      (excel_to_moodle_xml category rows).category_text =
        (if category = "" then "$course$/Default" else "$course$/" ++ category))
    ∧ (∀ (category : String) (rows : List QRow),
        (excel_to_moodle_xml category rows).questions.length = rows.length)
    ∧ (∀ (category : String) (rows : List QRow) (i : ℕ)
        (h1 : i < (excel_to_moodle_xml category rows).questions.length)
        (h2 : i < rows.length),
        (excel_to_moodle_xml category rows).questions.get ⟨i, h1⟩ =
          question_multichoice_xml (rows.get ⟨i, h2⟩) i) := by
  refine ⟨?_, ?_, ?_⟩
  · intro category rows
    show add_category_text category = _
    by_cases h : category = "" <;> simp [add_category_text, h]
  · intro category rows
    exact map_rows_length rows 0
  · intro category rows i h1 h2
    have := map_rows_get rows 0 i h2 h1
    simpa using this

/-- C6, witness: the assembler applied to the categories "Math" and "" and
a one-row list. -/
theorem claim_C6_witness :
    (excel_to_moodle_xml "Math" [emptyRow]).category_text = "$course$/Math"
    ∧ (excel_to_moodle_xml "" [emptyRow]).category_text = "$course$/Default"
    ∧ (excel_to_moodle_xml "Math" [emptyRow]).questions.get ⟨0, by decide⟩ =
        question_multichoice_xml emptyRow 0 :=
  ⟨(claim_C6_assembler.1 "Math" [emptyRow]).trans (by decide),
   (claim_C6_assembler.1 "" [emptyRow]).trans (by decide),
   claim_C6_assembler.2.2 "Math" [emptyRow] 0 (by decide) (by decide)⟩

/-- C7, counterexample: a present, non-blank name cell containing a control
character is emitted with the control character stripped, so the output
name does not equal the name field as the claim states. -/
theorem claim_C7_counterexample :
    ctrlNameRow.Name = Cell.cstr "a\x01b"
    ∧ (question_multichoice_xml ctrlNameRow 0).name = "ab"
    ∧ (question_multichoice_xml ctrlNameRow 0).name ≠ "a\x01b" :=
  ⟨rfl, by decide, by decide⟩

/-- C7 (amended): for every row whose name field is a string, the output
name is the control-stripped name string when it is non-empty and
"Q" ++ (index+1) when it is empty; a missing or NaN name field also yields
the "Q" fallback. -/
theorem claim_C7_name_fallback :
    ∀ (qrow : QRow) (index : ℕ),
      (∀ s : String, qrow.Name = Cell.cstr s →
        (question_multichoice_xml qrow index).name =
          (if s = "" then "Q" ++ String.mk (natDigits (index + 1))
           else String.mk (stripCtrlChars s.data)))
      ∧ (qrow.Name = Cell.cnone →
          (question_multichoice_xml qrow index).name =
            "Q" ++ String.mk (natDigits (index + 1)))
      ∧ (qrow.Name = Cell.cnan →
          (question_multichoice_xml qrow index).name =
            "Q" ++ String.mk (natDigits (index + 1))) := by
  intro qrow index
  refine ⟨?_, ?_, ?_⟩
  · intro s hs
    show question_name qrow index = _
    rw [question_name, hs]
    by_cases h : s = ""
    · subst h
      rw [if_pos (by decide), if_pos rfl]
      exact fallback_name_eq index
    · rw [if_neg (by simp [pyFalsy, isNanCell, h]), if_neg h]
      rfl
  · intro hs
    show question_name qrow index = _
    rw [question_name, hs, if_pos (by decide)]
    exact fallback_name_eq index
  · intro hs
    show question_name qrow index = _
    rw [question_name, hs, if_pos (by decide)]
    exact fallback_name_eq index

/-- C7, witness: a row with blank name mapped at positional index 3 is
named Q4. -/
theorem claim_C7_witness :
    (question_multichoice_xml blankNameRow 3).name = "Q4" :=
  ((claim_C7_name_fallback blankNameRow 3).1 "" rfl).trans (by decide)

/-- C8, counterexample: the one-character string consisting of a double
quote has no markup token and none of the characters ampersand, less-than,
greater-than, yet translate is not stable on its own output: the quote
escapes to an entity whose ampersand is escaped again on the second
pass. -/
theorem claim_C8_counterexample :
    convert_markup_to_html (convert_markup_to_html "\"") ≠ convert_markup_to_html "\""
    ∧ convert_markup_to_html "\"" = "&quot;"
    ∧ convert_markup_to_html (convert_markup_to_html "\"") = "&amp;quot;"
    ∧ '&' ∉ "\"".data ∧ '<' ∉ "\"".data ∧ '>' ∉ "\"".data ∧ '*' ∉ "\"".data
    ∧ '\n' ∉ "\"".data ∧ containsSub "[br]".data "\"".data = false
    ∧ matchBullet "\"".data = false ∧ matchNum "\"".data = false :=
  ⟨by decide, by decide, by decide, by decide, by decide, by decide, by decide,
   by decide, by decide, by decide, by decide⟩

/-- C8 (amended): translate is stable on repeated application for every
plain input string with no markup tokens, none of the escaped characters
(now also excluding the quote characters), no line breaks and no control
characters. -/
theorem claim_C8_translate_stable :
    ∀ s : String, plainText s = true →
      convert_markup_to_html (convert_markup_to_html s) = convert_markup_to_html s := by
  intro s h
  rw [convert_eq_self s h, convert_eq_self s h]

/-- C8, witness: the amended stability theorem at the plain string
"hello world". -/
theorem claim_C8_witness :
    plainText "hello world" = true ∧
      convert_markup_to_html (convert_markup_to_html "hello world") =
        convert_markup_to_html "hello world" :=
  ⟨by decide, claim_C8_translate_stable "hello world" (by decide)⟩

/-- C10: the text sanitizer maps None to the empty string and stringifies
every other non-string value before control-character removal, so a
missing optional text cell represented as the float NaN is sanitized to
the literal string "nan", and that text is emitted in the corresponding
HTML field of the question node. -/
theorem claim_C10_nan_text :
    strip_control Cell.cnan = "nan"
    ∧ strip_control Cell.cnone = ""
    ∧ (∀ (qrow : QRow) (index : ℕ), qrow.GeneralFeedback = Cell.cnan →
        (question_multichoice_xml qrow index).generalfeedback = "nan")
    ∧ (∀ (qrow : QRow) (i : Fin 5), qrow.Choice i = Cell.cnan →
        (mkAnswer qrow i).text = "nan")
    ∧ (∀ (qrow : QRow) (i : Fin 5), qrow.ChoiceFeedback i = Cell.cnan →
        (mkAnswer qrow i).feedback = "nan")
    ∧ (∀ (qrow : QRow) (index : ℕ), (question_multichoice_xml qrow index).answers =
        [mkAnswer qrow 0, mkAnswer qrow 1, mkAnswer qrow 2, mkAnswer qrow 3,
         mkAnswer qrow 4]) := by
  refine ⟨by decide, by decide, ?_, ?_, ?_, fun _ _ => rfl⟩
  · intro qrow index h
    show general_feedback_html qrow = "nan"
    rw [general_feedback_html, h]
    decide
  · intro qrow i h
    show convert_markup_to_html (strip_control (qrow.Choice i)) = "nan"
    rw [h]
    decide
  · intro qrow i h
    show convert_markup_to_html (strip_control (qrow.ChoiceFeedback i)) = "nan"
    rw [h]
    decide

/-- C10, witness: a row whose general feedback cell is NaN emits the
literal text "nan". -/
theorem claim_C10_witness :
    (question_multichoice_xml nanFeedbackRow 0).generalfeedback = "nan" :=
  claim_C10_nan_text.2.2.1 nanFeedbackRow 0 rfl
